import Mathlib

/-!
Verification of the mambabot Telegram/Claude bot core against its
natural-language specification.

Shallow embedding conventions:
- Python strings are modelled as `List Char` (`PyStr`).
- The `PermissionManager.pending_requests` dict is modelled as an
  association list `PermState`; dict operations are modelled
  extensionally (`eraseReq` is a filter, assignment overwrites).
- Async control flow is modelled by explicit outcome parameters: the
  branch of `wait_for_approval` that fires when `resolve` is never
  called within the timeout (the `asyncio.TimeoutError` handler) is
  embedded as `waitForApprovalTimedOut`.
-/

set_option maxRecDepth 100000

namespace MambaBot

/-- Python strings, modelled character by character. -/
abbrev PyStr := List Char

/-! ## Permission manager (src/telegram_claude_bot/permission_manager.py)

`PermissionRequest` embeds the dataclass of the same name; the
`response_event` field is modelled as the Bool `eventSet` (whether
`.set()` has been called). -/

structure PermissionRequest where
  toolName : PyStr
  toolInput : PyStr
  messageId : Option Nat
  approved : Option Bool
  eventSet : Bool
deriving DecidableEq

/-- The `pending_requests` dict, as an association list keyed by request id. -/
abbrev PermState := List (PyStr × PermissionRequest)

/-- Dict lookup: `self.pending_requests.get(request_id)` /
`request_id in self.pending_requests`. -/
def lookupReq : PermState → PyStr → Option PermissionRequest
  | [], _ => none
  | p :: rest, i => if p.1 = i then some p.2 else lookupReq rest i

/-- Dict removal: `self.pending_requests.pop(request_id)`. -/
def eraseReq (i : PyStr) (s : PermState) : PermState :=
  s.filter (fun p => decide (p.1 ≠ i))

/-- In-place mutation of the record stored at key `i`
(`self.pending_requests[request_id].field = ...`). -/
def updateReq (i : PyStr) (f : PermissionRequest → PermissionRequest) (s : PermState) :
    PermState :=
  s.map (fun p => if p.1 = i then (p.1, f p.2) else p)

/-- `request.approved = b; request.response_event.set()`. -/
def setResolved (b : Bool) (r : PermissionRequest) : PermissionRequest :=
  { r with approved := some b, eventSet := true }

/-- `PermissionManager.create_request` builds the id as
`f"\x7btool_name\x7d_\x7bdatetime.now().timestamp()\x7d"`; `nowRepr` is the decimal
rendering of the wall-clock reading `datetime.now().timestamp()`. -/
def createRequestId (toolName nowRepr : PyStr) : PyStr :=
  toolName ++ ('_' :: nowRepr)

/-- `PermissionManager.create_request`: allocate the record and store it
under the generated id (dict assignment overwrites an existing key). -/
def createRequest (s : PermState) (toolName toolInput nowRepr : PyStr) :
    PyStr × PermState :=
  let i := createRequestId toolName nowRepr
  (i, (i, ⟨toolName, toolInput, none, none, false⟩) :: eraseReq i s)

/-- `PermissionManager.approve_request`: if the id is unknown return
False; otherwise set `approved = True`, set the event, return True.
The record is not removed and no already-resolved check is made. -/
def approveRequest (s : PermState) (i : PyStr) : Bool × PermState :=
  match lookupReq s i with
  | none => (false, s)
  | some _ => (true, updateReq i (setResolved true) s)

/-- `PermissionManager.deny_request`: if the id is unknown return False;
otherwise set `approved = False`, set the event, return True.
The record is not removed and no already-resolved check is made. -/
def denyRequest (s : PermState) (i : PyStr) : Bool × PermState :=
  match lookupReq s i with
  | none => (false, s)
  | some _ => (true, updateReq i (setResolved false) s)

/-- `PermissionManager.get_request`. -/
def getRequest (s : PermState) (i : PyStr) : Option PermissionRequest :=
  lookupReq s i

/-- `PermissionManager.cleanup_request`: pop the id if present. -/
def cleanupRequest (s : PermState) (i : PyStr) : PermState :=
  match lookupReq s i with
  | none => s
  | some _ => eraseReq i s

/-- `PermissionManager.wait_for_approval` in the run where `resolve` is
never called within the timeout: the unknown-id branch returns False
without touching the dict; otherwise `asyncio.wait_for` raises
`TimeoutError`, the handler pops the id and returns False. -/
def waitForApprovalTimedOut (s : PermState) (i : PyStr) : Bool × PermState :=
  match lookupReq s i with
  | none => (false, s)
  | some _ => (false, eraseReq i s)

lemma lookup_eraseReq (i : PyStr) (s : PermState) :
    lookupReq (eraseReq i s) i = none := by
  induction s with
  | nil => rfl
  | cons p rest ih =>
    by_cases h : p.1 = i
    · simpa [eraseReq, List.filter_cons, h] using ih
    · simpa [eraseReq, List.filter_cons, h, lookupReq] using ih

lemma lookup_updateReq (i : PyStr) (f : PermissionRequest → PermissionRequest)
    (s : PermState) :
    lookupReq (updateReq i f s) i = (lookupReq s i).map f := by
  induction s with
  | nil => rfl
  | cons p rest ih =>
    by_cases h : p.1 = i
    · simp [updateReq, lookupReq, h]
    · simpa [updateReq, lookupReq, h] using ih

/-- A concrete pending request used for concrete evaluations. -/
def sampleReq : PermissionRequest :=
  ⟨"read_file".toList, "path=/x".toList, none, none, false⟩

/-- A concrete request id of the shape `create_request` produces. -/
def sampleId : PyStr := "read_file_1700000000.123456".toList

/-- A manager state holding exactly the sample pending request. -/
def sampleState : PermState := [(sampleId, sampleReq)]

/-- Claim C1 counterexample: after `approve_request(id)` succeeds, a later
`deny_request(id)` is not a no-op returning False — it returns True and
overwrites the stored `approved` flag to False, contradicting the claim at
this concrete input. -/
theorem deny_after_approve_succeeds_counterexample :
    (approveRequest sampleState sampleId).1 = true ∧
    (denyRequest (approveRequest sampleState sampleId).2 sampleId).1 ≠ false ∧
    lookupReq (denyRequest (approveRequest sampleState sampleId).2 sampleId).2 sampleId =
      some (setResolved false (setResolved true sampleReq)) := by
  decide

/-- Claim C1 (amended): a request stays in `pending_requests` after being
resolved, and a second resolution attempt on it succeeds: it returns True
and overwrites the stored `approved` flag; `resolve` returns False only
for ids absent from the pending dict. -/
theorem resolve_after_resolve_overwrites (s : PermState) (i : PyStr)
    (r : PermissionRequest) (h : lookupReq s i = some r) :
    (approveRequest s i).1 = true ∧
    (denyRequest (approveRequest s i).2 i).1 = true ∧
    lookupReq (denyRequest (approveRequest s i).2 i).2 i =
      some (setResolved false (setResolved true r)) := by
  have h1 : lookupReq (updateReq i (setResolved true) s) i =
      some (setResolved true r) := by
    rw [lookup_updateReq, h, Option.map_some']
  refine ⟨?_, ?_, ?_⟩
  · simp [approveRequest, h]
  · simp [approveRequest, denyRequest, h, h1]
  · simp [approveRequest, denyRequest, h, h1, lookup_updateReq]

/-- Witness for the amended Claim C1 theorem at the sample state. -/
theorem resolve_after_resolve_overwrites_witness :
    lookupReq sampleState sampleId = some sampleReq ∧
    ((approveRequest sampleState sampleId).1 = true ∧
     (denyRequest (approveRequest sampleState sampleId).2 sampleId).1 = true ∧
     lookupReq (denyRequest (approveRequest sampleState sampleId).2 sampleId).2 sampleId =
       some (setResolved false (setResolved true sampleReq))) :=
  ⟨by decide, resolve_after_resolve_overwrites sampleState sampleId sampleReq (by decide)⟩

/-- Claim C2: when `resolve` is never called within the wait timeout,
`wait_for_approval` returns False, the request id is no longer in the
pending dict afterwards, and any later `approve_request` or
`deny_request` on that id returns False and leaves the state unchanged. -/
theorem wait_timeout_expires_and_blocks_resolution (s : PermState) (i : PyStr) :
    (waitForApprovalTimedOut s i).1 = false ∧
    lookupReq (waitForApprovalTimedOut s i).2 i = none ∧
    approveRequest (waitForApprovalTimedOut s i).2 i =
      (false, (waitForApprovalTimedOut s i).2) ∧
    denyRequest (waitForApprovalTimedOut s i).2 i =
      (false, (waitForApprovalTimedOut s i).2) := by
  cases h : lookupReq s i with
  | none => simp [waitForApprovalTimedOut, approveRequest, denyRequest, h]
  | some r =>
    simp [waitForApprovalTimedOut, approveRequest, denyRequest, h, lookup_eraseReq]

/-- Claim C3: `create_request` derives the id from the tool name and the
wall-clock reading alone, so two calls that observe the same
`datetime.now().timestamp()` rendering produce the same id, and the
second call's dict assignment replaces the first pending record. -/
theorem create_request_wallclock_collision :
    ((createRequest [] "read_file".toList "path=/x".toList
        ("1700000000.123456".toList)).1 =
      (createRequest
        (createRequest [] "read_file".toList "path=/x".toList
          ("1700000000.123456".toList)).2
        "read_file".toList "path=/y".toList ("1700000000.123456".toList)).1) ∧
    lookupReq
      (createRequest
        (createRequest [] "read_file".toList "path=/x".toList
          ("1700000000.123456".toList)).2
        "read_file".toList "path=/y".toList ("1700000000.123456".toList)).2
      (createRequestId "read_file".toList ("1700000000.123456".toList)) =
      some ⟨"read_file".toList, "path=/y".toList, none, none, false⟩ := by
  decide

/-- Claim C10: a successful resolution leaves the request stored (with its
`approved` field set); it disappears only through `cleanup_request` or a
`wait_for_approval` timeout. -/
theorem resolution_keeps_request_until_cleanup (s : PermState) (i : PyStr)
    (r : PermissionRequest) (h : lookupReq s i = some r) :
    (approveRequest s i).1 = true ∧
    getRequest (approveRequest s i).2 i = some (setResolved true r) ∧
    (denyRequest s i).1 = true ∧
    getRequest (denyRequest s i).2 i = some (setResolved false r) ∧
    getRequest (cleanupRequest (approveRequest s i).2 i) i = none ∧
    getRequest (waitForApprovalTimedOut (approveRequest s i).2 i).2 i = none := by
  have h1 : lookupReq (updateReq i (setResolved true) s) i =
      some (setResolved true r) := by
    rw [lookup_updateReq, h, Option.map_some']
  refine ⟨?_, ?_, ?_, ?_, ?_, ?_⟩
  · simp [approveRequest, h]
  · simp [approveRequest, getRequest, h, h1]
  · simp [denyRequest, h]
  · simp [denyRequest, getRequest, h, lookup_updateReq]
  · simp [approveRequest, getRequest, cleanupRequest, h, h1, lookup_eraseReq]
  · simp [approveRequest, getRequest, waitForApprovalTimedOut, h, h1, lookup_eraseReq]

/-- Witness for the Claim C10 theorem at the sample state. -/
theorem resolution_keeps_request_until_cleanup_witness :
    lookupReq sampleState sampleId = some sampleReq ∧
    ((approveRequest sampleState sampleId).1 = true ∧
     getRequest (approveRequest sampleState sampleId).2 sampleId =
       some (setResolved true sampleReq) ∧
     (denyRequest sampleState sampleId).1 = true ∧
     getRequest (denyRequest sampleState sampleId).2 sampleId =
       some (setResolved false sampleReq) ∧
     getRequest (cleanupRequest (approveRequest sampleState sampleId).2 sampleId)
       sampleId = none ∧
     getRequest
       (waitForApprovalTimedOut (approveRequest sampleState sampleId).2 sampleId).2
       sampleId = none) :=
  ⟨by decide,
   resolution_keeps_request_until_cleanup sampleState sampleId sampleReq (by decide)⟩

/-! ## Session store (src/telegram_claude_bot/session.py)

`SessionManager.add_message` appends a `role`/`content` dict to the
chat's history and, when the length exceeds `config.max_history_length`,
keeps only the last `max_history_length` entries
(`history[-config.max_history_length:]`). -/

/-- One history entry (the dict with `role` and `content` keys). -/
structure Turn where
  role : String
  content : String
deriving DecidableEq

/-- The configuration fields used by the core (`BotConfig` in config.py;
`from_env` never overrides these defaults). -/
structure BotConfig where
  maxHistoryLength : Nat
  maxMessageLength : Nat
deriving DecidableEq

/-- The defaults from `BotConfig`: `max_history_length = 20`,
`max_message_length = 4000`. -/
def defaultConfig : BotConfig := ⟨20, 4000⟩

/-- `SessionManager.add_message` for one chat's history. The Python slice
`history[-m:]` (for `m ≥ 1`) keeps the last `m` entries, i.e. drops
`len - m` from the front. -/
def addMessage (cfg : BotConfig) (h : List Turn) (role content : String) : List Turn :=
  let h2 := h ++ [⟨role, content⟩]
  if cfg.maxHistoryLength < h2.length then
    h2.drop (h2.length - cfg.maxHistoryLength)
  else h2

/-- A whole sequence of `add_message` calls against one chat, starting from
the empty history `get_history` creates. -/
def runAdds (cfg : BotConfig) (msgs : List Turn) : List Turn :=
  msgs.foldl (fun h t => addMessage cfg h t.role t.content) []

lemma addMessage_eq (cfg : BotConfig) (h : List Turn) (role content : String) :
    addMessage cfg h role content =
      (h ++ [Turn.mk role content]).drop
        ((h ++ [Turn.mk role content]).length - cfg.maxHistoryLength) := by
  have e : addMessage cfg h role content =
      if cfg.maxHistoryLength < (h ++ [Turn.mk role content]).length then
        (h ++ [Turn.mk role content]).drop
          ((h ++ [Turn.mk role content]).length - cfg.maxHistoryLength)
      else h ++ [Turn.mk role content] := rfl
  rw [e]
  rcases lt_or_le cfg.maxHistoryLength (h ++ [Turn.mk role content]).length with hc | hc
  · rw [if_pos hc]
  · rw [if_neg (not_lt.mpr hc), Nat.sub_eq_zero_of_le hc, List.drop_zero]

lemma runAdds_eq_drop (cfg : BotConfig) (msgs : List Turn) :
    runAdds cfg msgs = msgs.drop (msgs.length - cfg.maxHistoryLength) := by
  induction msgs using List.reverseRecOn with
  | nil => simp [runAdds]
  | append_singleton msgs t ih =>
    have step : runAdds cfg (msgs ++ [t]) =
        addMessage cfg (runAdds cfg msgs) t.role t.content := by
      simp [runAdds, List.foldl_append]
    have ht : Turn.mk t.role t.content = t := rfl
    rw [step, addMessage_eq, ht, ih]
    have hdrop : msgs.drop (msgs.length - cfg.maxHistoryLength) ++ [t] =
        (msgs ++ [t]).drop (msgs.length - cfg.maxHistoryLength) :=
      (List.drop_append_of_le_length (by omega)).symm
    rw [hdrop, List.drop_drop, List.length_drop]
    congr 1
    simp only [List.length_append, List.length_cons, List.length_nil]
    omega

/-- Claim C4: after any sequence of appends the stored history is exactly
the suffix of the appended turns that fits in `max_history_length` — its
length never exceeds the maximum, and the retained turns are the most
recent ones in their original relative order. -/
theorem history_bounded_and_suffix (cfg : BotConfig)
    (hm : 1 ≤ cfg.maxHistoryLength) (msgs : List Turn) :
    runAdds cfg msgs = msgs.drop (msgs.length - cfg.maxHistoryLength) ∧
    (runAdds cfg msgs).length ≤ cfg.maxHistoryLength ∧
    (runAdds cfg msgs) <:+ msgs := by
  have h := runAdds_eq_drop cfg msgs
  refine ⟨h, ?_, ?_⟩
  · rw [h, List.length_drop]
    omega
  · rw [h]
    exact List.drop_suffix _ _

/-- Witness for the Claim C4 theorem: four appends against the default
configuration (maximum 20) keep all four turns. -/
theorem history_bounded_and_suffix_witness :
    1 ≤ defaultConfig.maxHistoryLength ∧
    (runAdds defaultConfig [⟨"user", "hi"⟩, ⟨"assistant", "hello"⟩,
        ⟨"user", "more"⟩, ⟨"assistant", "sure"⟩] =
      ([⟨"user", "hi"⟩, ⟨"assistant", "hello"⟩, ⟨"user", "more"⟩,
        ⟨"assistant", "sure"⟩] : List Turn).drop
        (([⟨"user", "hi"⟩, ⟨"assistant", "hello"⟩, ⟨"user", "more"⟩,
          ⟨"assistant", "sure"⟩] : List Turn).length -
          defaultConfig.maxHistoryLength) ∧
     (runAdds defaultConfig [⟨"user", "hi"⟩, ⟨"assistant", "hello"⟩,
        ⟨"user", "more"⟩, ⟨"assistant", "sure"⟩]).length ≤
       defaultConfig.maxHistoryLength ∧
     (runAdds defaultConfig [⟨"user", "hi"⟩, ⟨"assistant", "hello"⟩,
        ⟨"user", "more"⟩, ⟨"assistant", "sure"⟩]) <:+
       [⟨"user", "hi"⟩, ⟨"assistant", "hello"⟩, ⟨"user", "more"⟩,
        ⟨"assistant", "sure"⟩]) :=
  ⟨by decide,
   history_bounded_and_suffix defaultConfig (by decide) _⟩

/-! ## Tool-input display truncation

Two renderers exist in the source:
- `send_permission_request` (src/telegram_claude_bot/handlers/permissions.py):
  inputs longer than 500 characters render as their first 497 characters
  plus the `...` marker;
- `can_use_tool_callback` (bot.py): the preview is the first 400
  characters, with `...` appended when the input is longer than 400. -/

/-- `display_input` computation of `send_permission_request`:
`tool_input[:497] + "..."` when `len(tool_input) > 500`. -/
def displayInput (toolInput : PyStr) : PyStr :=
  if 500 < toolInput.length then toolInput.take 497 ++ "...".toList
  else toolInput

/-- `input_preview` computation of `can_use_tool_callback` in bot.py:
`str(tool_input)[:400]`, plus `"..."` when longer than 400. -/
def inputPreview (toolInput : PyStr) : PyStr :=
  let p := toolInput.take 400
  if 400 < toolInput.length then p ++ "...".toList else p

/-- Claim C9 counterexample: the package renderer
(`send_permission_request`, display cap 500) does not show the first
cap-many characters of a 1000-character input — it shows only the first
497 followed by the marker. -/
theorem display_cap_counterexample :
    displayInput (List.replicate 1000 'a') ≠
      (List.replicate 1000 'a').take 500 ++ "...".toList ∧
    displayInput (List.replicate 1000 'a') =
      (List.replicate 1000 'a').take 497 ++ "...".toList := by
  decide

/-- Claim C9 (amended): the bot.py callback renderer (cap 400) shows the
first 400 characters of an over-long input followed by the marker, total
length exactly 403 ≤ cap + 3 — realizing the claim's concrete case —
while the package renderer (cap 500) shows the first 497 characters plus
the marker, total length exactly 500 ≤ cap + 3. -/
theorem truncated_display_bounds (s : PyStr) (h4 : 400 < s.length)
    (h5 : 500 < s.length) :
    inputPreview s = s.take 400 ++ "...".toList ∧
    (inputPreview s).length = 403 ∧
    displayInput s = s.take 497 ++ "...".toList ∧
    (displayInput s).length = 500 := by
  refine ⟨?_, ?_, ?_, ?_⟩
  · simp [inputPreview, h4]
  · simp [inputPreview, h4, List.length_take]
    omega
  · simp [displayInput, h5]
  · simp [displayInput, h5, List.length_take]
    omega

/-- Witness for the amended Claim C9 theorem on a 1000-character input. -/
theorem truncated_display_bounds_witness :
    400 < (List.replicate 1000 'a').length ∧
    500 < (List.replicate 1000 'a').length ∧
    (inputPreview (List.replicate 1000 'a') =
        (List.replicate 1000 'a').take 400 ++ "...".toList ∧
      (inputPreview (List.replicate 1000 'a')).length = 403 ∧
      displayInput (List.replicate 1000 'a') =
        (List.replicate 1000 'a').take 497 ++ "...".toList ∧
      (displayInput (List.replicate 1000 'a')).length = 500) :=
  ⟨by decide, by decide,
   truncated_display_bounds (List.replicate 1000 'a') (by decide) (by decide)⟩

/-! ## Subprocess backend (`ClaudeProcessManager.send_prompt`)

The body of `send_prompt` runs under the global lock inside a
`try/except`: `asyncio.TimeoutError` is caught inline (kill the process,
return the timeout message, dropping any partial output),
`FileNotFoundError` and any other `Exception` are caught by the outer
handlers. The possible outcomes of the underlying subprocess run are
embedded as `SubprocOutcome`. -/

/-- What the underlying `claude` subprocess run can do. -/
inductive SubprocOutcome where
  | spawnNotFound : SubprocOutcome
  | timedOut (discardedOut : PyStr) : SubprocOutcome
  | completed (returncode : Int) (stdout stderr : PyStr) : SubprocOutcome
  | raisedOther (msg : PyStr) : SubprocOutcome
deriving DecidableEq

/-- Python exceptions that can escape the inner body of `send_prompt`. -/
inductive PyExc where
  | fileNotFoundError : PyExc
  | otherError (msg : PyStr) : PyExc
deriving DecidableEq

/-- `ERROR_MESSAGES['claude_cli_not_found']`. -/
def claudeCliNotFoundMsg : PyStr :=
  ("❌ Claude CLI not found. Please make sure 'claude' command is installed " ++
   "and available in your PATH.").toList

/-- `ERROR_MESSAGES['timeout']`. -/
def timeoutMsg : PyStr :=
  "❌ Timeout: Claude took too long to respond. Please try again.".toList

/-- `ERROR_MESSAGES['no_response']`. -/
def noResponseMsg : PyStr := "⚠️ No response received from Claude.".toList

/-- Python whitespace characters stripped by `str.strip()`. -/
def isPySpace (c : Char) : Bool :=
  c = ' ' || c = '\t' || c = '\n' || c = '\r' || c = '\x0b' || c = '\x0c'

/-- `str.strip()`: drop trailing whitespace, then leading whitespace. -/
def pyStrip (l : PyStr) : PyStr :=
  ((l.reverse.dropWhile isPySpace).reverse).dropWhile isPySpace

/-- The inner body of `send_prompt` (lines 72-114): the spawn may raise
`FileNotFoundError`; a timeout is handled inline by killing the process
and returning the timeout message (partial output discarded); a non-zero
exit returns the stripped stderr prefixed with the CLI-error banner;
otherwise the stripped stdout (or the no-response message if empty). -/
def sendPromptBody (o : SubprocOutcome) : Except PyExc PyStr :=
  match o with
  | .spawnNotFound => .error .fileNotFoundError
  | .timedOut _ => .ok timeoutMsg
  | .completed rc out err =>
    if rc ≠ 0 then .ok ("❌ Claude CLI error: ".toList ++ pyStrip err)
    else .ok (if pyStrip out = [] then noResponseMsg else pyStrip out)
  | .raisedOther m => .error (.otherError m)

/-- `ClaudeProcessManager.send_prompt`: the inner body plus the outer
`except FileNotFoundError` / `except Exception` handlers, every branch
returning a string. -/
def send_prompt (o : SubprocOutcome) : PyStr :=
  match sendPromptBody o with
  | .ok s => s
  | .error .fileNotFoundError => claudeCliNotFoundMsg
  | .error (.otherError m) => "❌ Error: ".toList ++ m

/-- Claim C7: `send_prompt` converts every failure mode into a returned
string: a missing executable yields the not-found apology, a timeout
yields the timeout message regardless of any partial output, a non-zero
exit yields the captured (stripped) error stream prefixed with the CLI
error banner, any other raised error yields an error string, and a zero
exit yields the stripped stdout or the no-response message. -/
theorem send_prompt_total_outcomes (o : SubprocOutcome) :
    send_prompt o =
      match o with
      | .spawnNotFound => claudeCliNotFoundMsg
      | .timedOut _ => timeoutMsg
      | .completed rc out err =>
        if rc ≠ 0 then "❌ Claude CLI error: ".toList ++ pyStrip err
        else if pyStrip out = [] then noResponseMsg else pyStrip out
      | .raisedOther m => "❌ Error: ".toList ++ m := by
  cases o with
  | spawnNotFound => rfl
  | timedOut p => rfl
  | completed rc out err =>
    by_cases hrc : rc = 0 <;> simp [send_prompt, sendPromptBody, hrc]
  | raisedOther m => rfl

/-! ## Message chunking (`split_message` in src/telegram_claude_bot/utils.py)

The function splits `text` on newline characters, greedily packs lines
(with their newline) into chunks of at most `max_length` characters
(flushed chunks are `strip()`-ed), and splits any single line longer
than `max_length` into raw `max_length`-character slices. -/

/-- Python `text.split('\n')`. -/
def splitNl : PyStr → List PyStr
  | [] => [[]]
  | c :: cs =>
    if c = '\n' then [] :: splitNl cs
    else
      match splitNl cs with
      | [] => [[c]]
      | h :: t => (c :: h) :: t

/-- The loop `for i in range(0, len(line), max_length):
chunks.append(line[i:i + max_length])`. Python's `range` raises for a
zero step, so the `maxLen = 0` guard is unreachable under the caller's
configuration (`max_message_length = 4000`). -/
def charChunks (maxLen : Nat) (l : PyStr) : List PyStr :=
  if hl : l = [] then []
  else if hm : maxLen = 0 then []
  else l.take maxLen :: charChunks maxLen (l.drop maxLen)
termination_by l.length
decreasing_by
  rw [List.length_drop]
  exact Nat.sub_lt (List.length_pos.mpr hl) (Nat.pos_of_ne_zero hm)

/-- One iteration of the `for line in lines` loop of `split_message`,
acting on the accumulator (chunks so far, current_chunk). -/
def smStep (maxLen : Nat) (acc : List PyStr × PyStr) (line : PyStr) :
    List PyStr × PyStr :=
  if maxLen < line.length then
    (acc.1 ++ (if acc.2 = [] then [] else [pyStrip acc.2]) ++ charChunks maxLen line,
     [])
  else if maxLen < acc.2.length + line.length + 1 then
    ((if acc.2 = [] then acc.1 else acc.1 ++ [pyStrip acc.2]), line ++ ['\n'])
  else
    (acc.1, acc.2 ++ (line ++ ['\n']))

/-- `split_message(text, max_length)`. -/
def split_message (text : PyStr) (maxLen : Nat) : List PyStr :=
  if text.length ≤ maxLen then [text]
  else
    let acc := (splitNl text).foldl (smStep maxLen) ([], [])
    acc.1 ++ (if acc.2 = [] then [] else [pyStrip acc.2])

lemma pyStrip_length_le (l : PyStr) : (pyStrip l).length ≤ l.length := by
  unfold pyStrip
  calc ((l.reverse.dropWhile isPySpace).reverse.dropWhile isPySpace).length
      ≤ (l.reverse.dropWhile isPySpace).reverse.length :=
        (List.dropWhile_sublist _).length_le
    _ = (l.reverse.dropWhile isPySpace).length := List.length_reverse _
    _ ≤ l.reverse.length := (List.dropWhile_sublist _).length_le
    _ = l.length := List.length_reverse _

lemma pyStrip_length_lt_of_last_nl (l : PyStr) (h : l.getLast? = some '\n') :
    (pyStrip l).length < l.length := by
  have hrev : l.reverse.head? = some '\n' := by rw [List.head?_reverse]; exact h
  cases hl : l.reverse with
  | nil => rw [hl] at hrev; simp at hrev
  | cons c t =>
    have hc : c = '\n' := by
      rw [hl] at hrev
      simpa using hrev
    have hdw : (l.reverse.dropWhile isPySpace).length ≤ t.length := by
      rw [hl, List.dropWhile_cons_of_pos (by simp [hc, isPySpace])]
      exact (List.dropWhile_sublist _).length_le
    have hlen : t.length + 1 = l.length := by
      have hcg := congrArg List.length hl
      rw [List.length_reverse] at hcg
      simp only [List.length_cons] at hcg
      omega
    unfold pyStrip
    calc ((l.reverse.dropWhile isPySpace).reverse.dropWhile isPySpace).length
        ≤ (l.reverse.dropWhile isPySpace).reverse.length :=
          (List.dropWhile_sublist _).length_le
      _ = (l.reverse.dropWhile isPySpace).length := List.length_reverse _
      _ ≤ t.length := hdw
      _ < l.length := by omega

lemma mem_charChunks_length (maxLen : Nat) (l : PyStr) :
    ∀ c ∈ charChunks maxLen l, c.length ≤ maxLen := by
  generalize hn : l.length = n
  induction n using Nat.strong_induction_on generalizing l with
  | _ n ih =>
    intro c hc
    rw [charChunks] at hc
    by_cases hl : l = []
    · simp [hl] at hc
    · by_cases hm : maxLen = 0
      · simp [hl, hm] at hc
      · rw [dif_neg hl, dif_neg hm] at hc
        rcases List.mem_cons.mp hc with hc | hc
        · rw [hc]
          exact List.length_take_le _ _
        · exact ih (l.drop maxLen).length
            (by rw [List.length_drop]
                subst hn
                exact Nat.sub_lt (List.length_pos.mpr hl) (Nat.pos_of_ne_zero hm))
            (l.drop maxLen) rfl c hc

/-- The loop invariant of `split_message`: every flushed chunk is within
the limit, and the current chunk is empty or newline-terminated with at
most `maxLen + 1` characters. -/
def SmInv (maxLen : Nat) (acc : List PyStr × PyStr) : Prop :=
  (∀ c ∈ acc.1, c.length ≤ maxLen) ∧
  (acc.2 = [] ∨ (acc.2.getLast? = some '\n' ∧ acc.2.length ≤ maxLen + 1))

lemma pyStrip_of_inv {maxLen : Nat} {cur : PyStr}
    (h : cur = [] ∨ (cur.getLast? = some '\n' ∧ cur.length ≤ maxLen + 1)) :
    (pyStrip cur).length ≤ maxLen := by
  rcases h with h | ⟨hnl, hle⟩
  · subst h
    simp [pyStrip]
  · have := pyStrip_length_lt_of_last_nl cur hnl
    omega

lemma smStep_inv (maxLen : Nat) (acc : List PyStr × PyStr) (line : PyStr)
    (h : SmInv maxLen acc) : SmInv maxLen (smStep maxLen acc line) := by
  obtain ⟨hchunks, hcur⟩ := h
  unfold smStep
  by_cases h1 : maxLen < line.length
  · rw [if_pos h1]
    refine ⟨?_, Or.inl rfl⟩
    intro c hc
    simp only [List.mem_append] at hc
    rcases hc with (hc | hc) | hc
    · exact hchunks c hc
    · by_cases hn : acc.2 = []
      · simp [hn] at hc
      · rw [if_neg hn, List.mem_singleton] at hc
        rw [hc]
        exact pyStrip_of_inv hcur
    · exact mem_charChunks_length maxLen line c hc
  · rw [if_neg h1]
    by_cases h2 : maxLen < acc.2.length + line.length + 1
    · rw [if_pos h2]
      refine ⟨?_, Or.inr ⟨List.getLast?_concat _, ?_⟩⟩
      · intro c hc
        by_cases hn : acc.2 = []
        · rw [if_pos hn] at hc
          exact hchunks c hc
        · rw [if_neg hn, List.mem_append, List.mem_singleton] at hc
          rcases hc with hc | hc
          · exact hchunks c hc
          · rw [hc]
            exact pyStrip_of_inv hcur
      · show (line ++ ['\n']).length ≤ maxLen + 1
        simp only [List.length_append, List.length_cons, List.length_nil]
        omega
    · rw [if_neg h2]
      refine ⟨hchunks, Or.inr ⟨?_, ?_⟩⟩
      · show (acc.2 ++ (line ++ ['\n'])).getLast? = some '\n'
        rw [← List.append_assoc]
        exact List.getLast?_concat _
      · show (acc.2 ++ (line ++ ['\n'])).length ≤ maxLen + 1
        simp only [List.length_append, List.length_cons, List.length_nil]
        omega

lemma foldl_smStep_inv (maxLen : Nat) (lines : List PyStr) :
    ∀ acc, SmInv maxLen acc → SmInv maxLen (lines.foldl (smStep maxLen) acc) := by
  induction lines with
  | nil => intro acc h; exact h
  | cons line rest ih =>
    intro acc h
    exact ih _ (smStep_inv maxLen acc line h)

lemma split_message_chunk_le (text : PyStr) (maxLen : Nat) (hm : 1 ≤ maxLen) :
    ∀ c ∈ split_message text maxLen, c.length ≤ maxLen := by
  intro c hc
  unfold split_message at hc
  by_cases hshort : text.length ≤ maxLen
  · rw [if_pos hshort] at hc
    rw [List.mem_singleton.mp hc]
    exact hshort
  · rw [if_neg hshort] at hc
    have hinv : SmInv maxLen ((splitNl text).foldl (smStep maxLen) ([], [])) :=
      foldl_smStep_inv maxLen (splitNl text) ([], []) ⟨by simp, Or.inl rfl⟩
    obtain ⟨hchunks, hcur⟩ := hinv
    simp only [List.mem_append] at hc
    rcases hc with hc | hc
    · exact hchunks c hc
    · by_cases hn : ((splitNl text).foldl (smStep maxLen) ([], [])).2 = []
      · simp [hn] at hc
      · rw [if_neg hn, List.mem_singleton] at hc
        rw [hc]
        exact pyStrip_of_inv hcur

/-- A 50-character line. -/
def line50 : PyStr := List.replicate 50 'a'

/-- `k` fifty-character lines joined by newlines. -/
def icat (k : Nat) : PyStr := List.intercalate ['\n'] (List.replicate k line50)

/-- 100 fifty-character lines joined by newlines: 5000 visible characters
(5099 including the 99 separators). -/
def text5000 : PyStr := icat 100

/-- `k` copies of a fifty-character line each followed by its newline:
the value `current_chunk` accumulates while packing these lines. -/
def lineRep (k : Nat) : PyStr := (List.replicate k (line50 ++ ['\n'])).flatten

lemma line50_length : line50.length = 50 := by simp [line50]

lemma line50_cons : line50 = 'a' :: List.replicate 49 'a' := by decide

lemma nl_not_mem_line50 : '\n' ∉ line50 := by
  intro h
  have := List.eq_of_mem_replicate h
  exact absurd this (by decide)

lemma intercalate_cons (a : PyStr) (l : List PyStr) (hl : l ≠ []) :
    List.intercalate ['\n'] (a :: l) = a ++ '\n' :: List.intercalate ['\n'] l := by
  cases l with
  | nil => exact absurd rfl hl
  | cons b t => simp [List.intercalate]

lemma icat_one : icat 1 = line50 := by simp [icat, List.intercalate]

lemma icat_succ (k : Nat) (hk : 1 ≤ k) : icat (k + 1) = line50 ++ '\n' :: icat k := by
  show List.intercalate ['\n'] (List.replicate (k + 1) line50) = _
  rw [List.replicate_succ,
    intercalate_cons _ _ (by
      intro e
      have hle := congrArg List.length e
      simp at hle
      omega)]
  rfl

lemma lineRep_zero : lineRep 0 = [] := rfl

lemma lineRep_succ (k : Nat) :
    lineRep (k + 1) = (line50 ++ ['\n']) ++ lineRep k := by
  show (List.replicate (k + 1) (line50 ++ ['\n'])).flatten = _
  rw [List.replicate_succ]
  rfl

lemma lineRep_succ' (k : Nat) :
    lineRep (k + 1) = lineRep k ++ (line50 ++ ['\n']) := by
  induction k with
  | zero => rw [lineRep_succ, lineRep_zero, List.append_nil, List.nil_append]
  | succ k ih =>
    rw [lineRep_succ (k + 1), ih, ← List.append_assoc, ← lineRep_succ k, ← ih]

lemma lineRep_length (k : Nat) : (lineRep k).length = 51 * k := by
  induction k with
  | zero => rfl
  | succ k ih =>
    rw [lineRep_succ, List.length_append, ih, List.length_append, line50_length]
    simp only [List.length_cons, List.length_nil]
    omega

lemma lineRep_eq_icat (k : Nat) (hk : 1 ≤ k) : lineRep k = icat k ++ ['\n'] := by
  induction k with
  | zero => omega
  | succ k ih =>
    by_cases hk1 : 1 ≤ k
    · rw [lineRep_succ, ih hk1, icat_succ k hk1]
      simp [List.append_assoc]
    · have hk0 : k = 0 := by omega
      subst hk0
      rw [lineRep_succ, lineRep_zero, icat_one, List.append_nil]

lemma icat_length (k : Nat) (hk : 1 ≤ k) : (icat k).length = 51 * k - 1 := by
  have h := congrArg List.length (lineRep_eq_icat k hk)
  rw [lineRep_length, List.length_append] at h
  simp only [List.length_cons, List.length_nil] at h
  omega

lemma icat_head? (k : Nat) (hk : 1 ≤ k) : (icat k).head? = some 'a' := by
  cases k with
  | zero => omega
  | succ k =>
    by_cases hk1 : 1 ≤ k
    · rw [icat_succ k hk1, line50_cons]
      rfl
    · have hk0 : k = 0 := by omega
      subst hk0
      rw [icat_one, line50_cons]
      rfl

lemma icat_getLast? (k : Nat) (hk : 1 ≤ k) : (icat k).getLast? = some 'a' := by
  induction k with
  | zero => omega
  | succ k ih =>
    by_cases hk1 : 1 ≤ k
    · have hne : icat k ≠ [] := by
        intro e
        have := ih hk1
        rw [e] at this
        simp at this
      rw [icat_succ k hk1, show line50 ++ '\n' :: icat k =
            (line50 ++ ['\n']) ++ icat k by simp,
        List.getLast?_append_of_ne_nil _ hne]
      exact ih hk1
    · have hk0 : k = 0 := by omega
      subst hk0
      rw [icat_one, line50_cons]
      decide

lemma splitNl_no_nl (l : PyStr) (h : '\n' ∉ l) : splitNl l = [l] := by
  induction l with
  | nil => rfl
  | cons c cs ih =>
    have hc : ¬ c = '\n' := by
      intro e
      exact h (by rw [e]; exact List.mem_cons_self _ _)
    have hcs : '\n' ∉ cs := fun m => h (List.mem_cons_of_mem _ m)
    simp [splitNl, hc, ih hcs]

lemma splitNl_append (line rest : PyStr) (h : '\n' ∉ line) :
    splitNl (line ++ '\n' :: rest) = line :: splitNl rest := by
  induction line with
  | nil => simp [splitNl]
  | cons c cs ih =>
    have hc : ¬ c = '\n' := by
      intro e
      exact h (by rw [e]; exact List.mem_cons_self _ _)
    have hcs : '\n' ∉ cs := fun m => h (List.mem_cons_of_mem _ m)
    simp [splitNl, hc, ih hcs]

lemma splitNl_icat (k : Nat) (hk : 1 ≤ k) :
    splitNl (icat k) = List.replicate k line50 := by
  induction k with
  | zero => omega
  | succ k ih =>
    by_cases hk1 : 1 ≤ k
    · rw [icat_succ k hk1, splitNl_append _ _ nl_not_mem_line50, ih hk1,
        List.replicate_succ]
    · have hk0 : k = 0 := by omega
      subst hk0
      rw [icat_one, splitNl_no_nl _ nl_not_mem_line50]
      rfl

lemma smStep_branch3 (C : List PyStr) (j : Nat) (hj : j ≤ 77) :
    smStep 4000 (C, lineRep j) line50 = (C, lineRep (j + 1)) := by
  have h1 : ¬ (4000 < line50.length) := by rw [line50_length]; omega
  have h2 : ¬ (4000 < (lineRep j).length + line50.length + 1) := by
    rw [lineRep_length, line50_length]
    omega
  show (if 4000 < line50.length then _ else
    if 4000 < (lineRep j).length + line50.length + 1 then _ else
      (C, lineRep j ++ (line50 ++ ['\n']))) = (C, lineRep (j + 1))
  rw [if_neg h1, if_neg h2, lineRep_succ' j]

lemma foldl_smStep_lineRep (k : Nat) :
    ∀ (C : List PyStr) (j : Nat), j + k ≤ 78 →
      (List.replicate k line50).foldl (smStep 4000) (C, lineRep j) =
        (C, lineRep (j + k)) := by
  induction k with
  | zero => intro C j _; rfl
  | succ k ih =>
    intro C j h
    rw [List.replicate_succ, List.foldl_cons, smStep_branch3 C j (by omega)]
    have hres := ih C (j + 1) (by omega)
    have e : j + 1 + k = j + (k + 1) := by omega
    rw [e] at hres
    exact hres

lemma lineRep_ne_nil (k : Nat) (hk : 1 ≤ k) : lineRep k ≠ [] := by
  intro e
  have := congrArg List.length e
  rw [lineRep_length] at this
  simp at this
  omega

lemma smStep_branch2 (C : List PyStr) (cur : PyStr) (hne : cur ≠ [])
    (h2 : 4000 < cur.length + line50.length + 1) :
    smStep 4000 (C, cur) line50 = (C ++ [pyStrip cur], line50 ++ ['\n']) := by
  have h1 : ¬ (4000 < line50.length) := by rw [line50_length]; omega
  show (if 4000 < line50.length then _ else
    if 4000 < cur.length + line50.length + 1 then
      ((if cur = [] then C else C ++ [pyStrip cur]), line50 ++ ['\n'])
    else _) = (C ++ [pyStrip cur], line50 ++ ['\n'])
  rw [if_neg h1, if_pos h2, if_neg hne]

lemma pyStrip_clean (s : PyStr) (h1 : s.head? = some 'a')
    (h2 : s.getLast? = some 'a') : pyStrip (s ++ ['\n']) = s := by
  have hrev : s.reverse.head? = some 'a' := by rw [List.head?_reverse]; exact h2
  cases hr : s.reverse with
  | nil => rw [hr] at hrev; simp at hrev
  | cons c t =>
    have hc : c = 'a' := by rw [hr] at hrev; simpa using hrev
    have hinner : (s ++ ['\n']).reverse.dropWhile isPySpace = c :: t := by
      rw [List.reverse_append, show (['\n'] : PyStr).reverse = ['\n'] from rfl,
        List.singleton_append, List.dropWhile_cons_of_pos (by simp [isPySpace]),
        hr, List.dropWhile_cons_of_neg (by simp [hc, isPySpace])]
    unfold pyStrip
    rw [hinner, ← hr, List.reverse_reverse]
    cases hs : s with
    | nil => rw [hs] at h1; simp at h1
    | cons d u =>
      have hd : d = 'a' := by rw [hs] at h1; simpa using h1
      rw [List.dropWhile_cons_of_neg (by simp [hd, isPySpace])]

lemma pyStrip_lineRep (k : Nat) (hk : 1 ≤ k) : pyStrip (lineRep k) = icat k := by
  rw [lineRep_eq_icat k hk]
  exact pyStrip_clean _ (icat_head? k hk) (icat_getLast? k hk)

lemma icat_append_mid (m n : Nat) (hm : 1 ≤ m) (hn : 1 ≤ n) :
    icat (m + n) = icat m ++ '\n' :: icat n := by
  induction m with
  | zero => omega
  | succ m ih =>
    by_cases hm1 : 1 ≤ m
    · have e : m + 1 + n = (m + n) + 1 := by omega
      rw [e, icat_succ (m + n) (by omega), ih hm1, icat_succ m hm1]
      simp
    · have hm0 : m = 0 := by omega
      subst hm0
      rw [show 0 + 1 + n = n + 1 from by omega, icat_succ n hn, icat_one]

lemma split_message_long (text : PyStr) (maxLen : Nat)
    (h : ¬ (text.length ≤ maxLen)) :
    split_message text maxLen =
      ((splitNl text).foldl (smStep maxLen) ([], [])).1 ++
        (if ((splitNl text).foldl (smStep maxLen) ([], [])).2 = [] then []
         else [pyStrip ((splitNl text).foldl (smStep maxLen) ([], [])).2]) := by
  unfold split_message
  rw [if_neg h]

lemma split_message_text5000 :
    split_message text5000 4000 = [icat 78, icat 22] := by
  have hlen : ¬ (text5000.length ≤ 4000) := by
    have he : text5000.length = 51 * 100 - 1 := icat_length 100 (by omega)
    rw [he]
    omega
  rw [split_message_long text5000 4000 hlen]
  have hsplit : splitNl text5000 = List.replicate 100 line50 :=
    splitNl_icat 100 (by omega)
  have e100 : List.replicate 100 line50 =
      List.replicate 78 line50 ++ List.replicate 22 line50 :=
    List.replicate_add 78 22 line50
  rw [hsplit, e100, List.foldl_append]
  have h78 : (List.replicate 78 line50).foldl (smStep 4000) ([], []) =
      ([], lineRep 78) := foldl_smStep_lineRep 78 [] 0 (by omega)
  have e22 : List.replicate 22 line50 = line50 :: List.replicate 21 line50 := rfl
  rw [h78, e22, List.foldl_cons,
    smStep_branch2 [] (lineRep 78) (lineRep_ne_nil 78 (by omega))
      (by rw [lineRep_length, line50_length]; omega),
    List.nil_append]
  have e1 : line50 ++ ['\n'] = lineRep 1 := by
    rw [lineRep_succ, lineRep_zero, List.append_nil]
  rw [e1]
  have h21 : (List.replicate 21 line50).foldl (smStep 4000)
      ([pyStrip (lineRep 78)], lineRep 1) =
      ([pyStrip (lineRep 78)], lineRep 22) :=
    foldl_smStep_lineRep 21 [pyStrip (lineRep 78)] 1 (by omega)
  rw [h21, if_neg (lineRep_ne_nil 22 (by omega)), pyStrip_lineRep 78 (by omega),
    pyStrip_lineRep 22 (by omega)]
  rfl

/-- Claim C8: every chunk `split_message` returns is at most `max_length`
characters long, and on the 5000-visible-character message of 100
fifty-character lines with `max_length = 4000` it returns exactly 2
chunks, each within the limit, whose concatenation with the line break
restored reproduces the original text. -/
theorem split_message_spec :
    (∀ (text : PyStr) (maxLen : Nat), 1 ≤ maxLen →
      ∀ c ∈ split_message text maxLen, c.length ≤ maxLen) ∧
    (split_message text5000 4000).length = 2 ∧
    (∀ c ∈ split_message text5000 4000, c.length ≤ 4000) ∧
    List.intercalate ['\n'] (split_message text5000 4000) = text5000 := by
  refine ⟨split_message_chunk_le, ?_, ?_, ?_⟩
  · rw [split_message_text5000]
    rfl
  · exact split_message_chunk_le text5000 4000 (by omega)
  · rw [split_message_text5000,
      show List.intercalate ['\n'] [icat 78, icat 22] =
        icat 78 ++ '\n' :: icat 22 from by simp [List.intercalate],
      ← icat_append_mid 78 22 (by omega) (by omega)]
    rfl

/-- Witness for the universally quantified part of the Claim C8 theorem:
splitting the 5-character text `ab` newline `cd` with limit 3 keeps the
first chunk within 3 characters. -/
theorem split_message_spec_witness :
    1 ≤ 3 ∧ ("ab".toList : PyStr).length ≤ 3 :=
  ⟨by decide,
   split_message_spec.1 ("ab\ncd".toList) 3 (by decide) ("ab".toList)
     (by rw [show split_message ("ab\ncd".toList) 3 =
          ["ab".toList, "cd".toList] from by decide]
         exact List.mem_cons_self _ _)⟩

/-! ## Concurrency model for the execution serializer

The bot runs on a single-threaded asyncio event loop: a run of several
coroutines is an interleaving of their steps, with suspension only at
await points. `interleavings` enumerates every schedule of two
step sequences; lock semantics (`asyncio.Lock`: at most one holder,
acquired only when free) is the predicate `lockOk`. -/

/-- All interleavings of two sequences, by structural recursion on a fuel
that the wrapper always supplies adequately. -/
def interleavingsAux : Nat → List α → List α → List (List α)
  | _, [], ys => [ys]
  | _, x :: xs, [] => [x :: xs]
  | 0, xs, ys => [xs ++ ys]
  | n + 1, x :: xs, y :: ys =>
    (interleavingsAux n xs (y :: ys)).map (x :: ·) ++
      (interleavingsAux n (x :: xs) ys).map (y :: ·)

/-- All interleavings of two sequences (the possible single-threaded
schedules of two concurrently issued coroutines). -/
def interleavings (xs ys : List α) : List (List α) :=
  interleavingsAux (xs.length + ys.length) xs ys

/-- Atomic events of an agent invocation, tagged with a task id:
`acq`/`rel` bracket `async with self.lock` in
`ClaudeProcessManager.send_prompt`, `subStart`/`subEnd` bracket its
subprocess phase (spawn through `communicate`), and
`strStart`/`strEnd` bracket a streaming-SDK query
(`query_claude_with_permissions`), which takes no lock. -/
inductive InvStep where
  | acq (t : Nat)
  | subStart (t : Nat)
  | subEnd (t : Nat)
  | rel (t : Nat)
  | strStart (t : Nat)
  | strEnd (t : Nat)
deriving DecidableEq

/-- The event sequence of one `send_prompt` call: the lock is acquired,
the whole subprocess phase runs, the lock is released. -/
def cliProg (t : Nat) : List InvStep :=
  [.acq t, .subStart t, .subEnd t, .rel t]

/-- The event sequence of one streaming-backend invocation: no lock. -/
def streamProg (t : Nat) : List InvStep :=
  [.strStart t, .strEnd t]

/-- `asyncio.Lock` semantics along a schedule: an `acq` succeeds only
when the lock is free, a `rel` only by the holder. -/
def lockOk : Option Nat → List InvStep → Bool
  | _, [] => true
  | none, .acq t :: rest => lockOk (some t) rest
  | some _, .acq _ :: _ => false
  | some h, .rel t :: rest => decide (h = t) && lockOk none rest
  | none, .rel _ :: _ => false
  | h, .subStart _ :: rest => lockOk h rest
  | h, .subEnd _ :: rest => lockOk h rest
  | h, .strStart _ :: rest => lockOk h rest
  | h, .strEnd _ :: rest => lockOk h rest

/-- Position of the first occurrence of a step in a schedule. -/
def stepIdx (s : List InvStep) (e : InvStep) : Nat := s.findIdx (· = e)

/-- The subprocess phases of tasks 1 and 2 are disjoint in schedule `s`,
ordered the same way as their lock acquisitions. -/
def serializedInOrder (s : List InvStep) : Prop :=
  (stepIdx s (.acq 1) < stepIdx s (.acq 2) →
    stepIdx s (.subEnd 1) < stepIdx s (.subStart 2)) ∧
  (stepIdx s (.acq 2) < stepIdx s (.acq 1) →
    stepIdx s (.subEnd 2) < stepIdx s (.subStart 1))

instance (s : List InvStep) : Decidable (serializedInOrder s) := by
  unfold serializedInOrder
  infer_instance

/-- Claim C5: in every event-loop schedule of two concurrent
`send_prompt` invocations that respects the `asyncio.Lock` semantics,
the two subprocess phases do not overlap and run in lock-acquisition
order; and there is a valid schedule of two streaming-backend
invocations whose phases do overlap (no mutual exclusion). -/
theorem subprocess_serialized_streaming_concurrent :
    (∀ s ∈ interleavings (cliProg 1) (cliProg 2), lockOk none s = true →
      serializedInOrder s) ∧
    ([InvStep.strStart 1, .strStart 2, .strEnd 1, .strEnd 2] ∈
        interleavings (streamProg 1) (streamProg 2) ∧
      lockOk none [InvStep.strStart 1, .strStart 2, .strEnd 1, .strEnd 2] = true ∧
      stepIdx [InvStep.strStart 1, .strStart 2, .strEnd 1, .strEnd 2]
          (.strStart 2) <
        stepIdx [InvStep.strStart 1, .strStart 2, .strEnd 1, .strEnd 2]
          (.strEnd 1)) := by
  refine ⟨?_, by decide, by decide, by decide⟩
  decide

/-- Witness for the universally quantified part of the Claim C5 theorem:
the fully serial schedule is valid and serialized in order. -/
theorem subprocess_serialized_streaming_concurrent_witness :
    ([InvStep.acq 1, .subStart 1, .subEnd 1, .rel 1,
        .acq 2, .subStart 2, .subEnd 2, .rel 2] ∈
      interleavings (cliProg 1) (cliProg 2)) ∧
    lockOk none [InvStep.acq 1, .subStart 1, .subEnd 1, .rel 1,
        .acq 2, .subStart 2, .subEnd 2, .rel 2] = true ∧
    serializedInOrder [InvStep.acq 1, .subStart 1, .subEnd 1, .rel 1,
        .acq 2, .subStart 2, .subEnd 2, .rel 2] :=
  ⟨by decide, by decide,
   subprocess_serialized_streaming_concurrent.1 _ (by decide) (by decide)⟩

/-! ## Same-conversation concurrency (`_handle_text_message`)

For one conversation, an invocation is: await the backend
(`send_prompt` / `query_claude_*`), then append the user turn and the
assistant turn. The two `add_message` calls (messages.py lines 100-101)
are synchronous statements with no await between them, so under the
single-threaded event loop they form one atomic segment; the await of
the backend is a suspension point. There is no per-conversation lock
anywhere in the handler. -/

/-- Atomic steps of `_handle_text_message` for invocation `t` on one chat. -/
inductive HStep where
  | invoke (t : Nat)
  | appendU (t : Nat)
  | appendA (t : Nat)
deriving DecidableEq

/-- The handler's atomic segments: the awaited backend call is one
suspension-separated segment; the two history appends run back to back
with no suspension point between them, hence one atomic segment. -/
def handlerSegs (t : Nat) : List (List HStep) :=
  [[.invoke t], [.appendU t, .appendA t]]

/-- Every single-threaded event-loop schedule of two concurrent
invocations for the same chat: an interleaving of the two handlers'
atomic segments. -/
def coopSchedules : List (List HStep) :=
  (interleavings (handlerSegs 1) (handlerSegs 2)).map List.flatten

/-- The conversation history produced by a schedule: each append emits a
turn (task id, is-assistant flag) in execution order. -/
def historyOf (s : List HStep) : List (Nat × Bool) :=
  s.filterMap fun st =>
    match st with
    | .appendU t => some (t, false)
    | .appendA t => some (t, true)
    | .invoke _ => none

/-- Each invocation's user/assistant pair forms a contiguous block. -/
def pairContiguous (h : List (Nat × Bool)) : Prop :=
  h = [(1, false), (1, true), (2, false), (2, true)] ∨
    h = [(2, false), (2, true), (1, false), (1, true)]

instance (h : List (Nat × Bool)) : Decidable (pairContiguous h) := by
  unfold pairContiguous
  infer_instance

/-- Position of the first occurrence of a step in a schedule. -/
def hStepIdx (s : List HStep) (e : HStep) : Nat := s.findIdx (· = e)

/-- Claim C6 counterexample: the schedule in which both backends run
before either handler appends is a valid event-loop schedule, and in it
invocation 2's steps fall strictly between invocation 1's backend call
and its appends — so invoking the agent and appending its result do not
form one per-conversation critical section, contrary to the claim's
stated mechanism. -/
theorem same_chat_no_critical_section_counterexample :
    ([HStep.invoke 1, .invoke 2, .appendU 1, .appendA 1,
        .appendU 2, .appendA 2] ∈ coopSchedules) ∧
    hStepIdx [HStep.invoke 1, .invoke 2, .appendU 1, .appendA 1,
        .appendU 2, .appendA 2] (.invoke 1) <
      hStepIdx [HStep.invoke 1, .invoke 2, .appendU 1, .appendA 1,
        .appendU 2, .appendA 2] (.invoke 2) ∧
    hStepIdx [HStep.invoke 1, .invoke 2, .appendU 1, .appendA 1,
        .appendU 2, .appendA 2] (.invoke 2) <
      hStepIdx [HStep.invoke 1, .invoke 2, .appendU 1, .appendA 1,
        .appendU 2, .appendA 2] (.appendU 1) := by
  decide

/-- Claim C6 (amended): in every event-loop schedule of two concurrent
same-chat invocations the resulting history still contains each
invocation's user/assistant pair as a contiguous block — but because the
two appends run synchronously between suspension points, not because of
any per-conversation critical section: schedules interleaving the two
backend phases are valid. -/
theorem same_chat_appends_contiguous :
    (∀ s ∈ coopSchedules, pairContiguous (historyOf s)) ∧
    ([HStep.invoke 1, .invoke 2, .appendU 1, .appendA 1,
        .appendU 2, .appendA 2] ∈ coopSchedules) := by
  refine ⟨?_, by decide⟩
  decide

/-- Witness for the universally quantified part of the Claim C6 theorem:
the serial schedule yields a contiguous history. -/
theorem same_chat_appends_contiguous_witness :
    ([HStep.invoke 1, .appendU 1, .appendA 1, .invoke 2,
        .appendU 2, .appendA 2] ∈ coopSchedules) ∧
    pairContiguous (historyOf [HStep.invoke 1, .appendU 1, .appendA 1,
      .invoke 2, .appendU 2, .appendA 2]) :=
  ⟨by decide, same_chat_appends_contiguous.1 _ (by decide)⟩

end MambaBot
